import Mathlib

/-!
Shallow embedding of the Drop-color video converter
(src/Drop-color/video_color_converter_bundled_final.py and
src/Drop-color/video_color_converter_windows.py).

The two Python variants are embedded side by side: namespace `Bundled`
models `video_color_converter_bundled_final.py`, namespace `Windows`
models `video_color_converter_windows.py`.  Pure helpers shared by both
live at the top of namespace `VCC`.

External processes (ffmpeg / ffprobe) are opaque collaborators: their
observable interface here is the text they print (probe stdout, encoder
stderr lines) and their exit codes, which the embedded functions consume
exactly as the Python code does.

String operations are implemented structurally over `List Char` so that
every definition evaluates by `decide`/`rfl` on concrete inputs.
-/

namespace VCC

/-- Model of Python `str.strip()` on character lists: drop whitespace from
both ends. -/
def pyStripList (cs : List Char) : List Char :=
  ((cs.dropWhile Char.isWhitespace).reverse.dropWhile Char.isWhitespace).reverse

/-- Model of Python `str.strip()`. -/
def pyStrip (s : String) : String :=
  ⟨pyStripList s.toList⟩

/-- Value of a list of decimal digit characters, most significant first
(the way Python `int`/`float` read a digit run). -/
def digitsVal (cs : List Char) : Nat :=
  cs.foldl (fun a c => a * 10 + (c.toNat - 48)) 0

/-- Every character of the list is a decimal digit. -/
def allDigits (cs : List Char) : Bool :=
  cs.all Char.isDigit

/-- Model of Python `str.isdigit()` on the ASCII strings the prober emits:
true iff the string is nonempty and consists only of decimal digits. -/
def pyIsdigit (s : String) : Bool :=
  !s.toList.isEmpty && allDigits s.toList

/-- Spec-side predicate: the string is a well-formed positive integer
(nonempty, all decimal digits, and of value greater than zero).  This is
the condition the spec's bitrate policy talks about; it is compared
against what each variant actually checks. -/
def isPosIntStr (s : String) : Bool :=
  pyIsdigit s && digitsVal s.toList != 0

/-- Model of Python `float(·)` on the decimal forms the prober emits
(`12.345000`, `7`, `.5`, optionally signed): the exact rational value, or
`none` where Python raises `ValueError` (empty string, `N/A`, any other
non-numeric text).  Python's binary floating point is idealised to exact
rationals. -/
def pyFloatList (cs : List Char) : Option Rat :=
  let t := pyStripList cs
  let sb : Rat × List Char :=
    match t with
    | '-' :: rest => (-1, rest)
    | '+' :: rest => (1, rest)
    | _ => (1, t)
  match sb.2.splitOn '.' with
  | [ip] =>
      if !ip.isEmpty && allDigits ip then some (sb.1 * (digitsVal ip : Rat)) else none
  | [ip, fp] =>
      if allDigits ip && allDigits fp && (!ip.isEmpty || !fp.isEmpty) then
        some (sb.1 * ((digitsVal ip : Rat) + (digitsVal fp : Rat) / (10 ^ fp.length)))
      else none
  | _ => none

/-- Model of Python `float(·)` on strings. -/
def pyFloat (s : String) : Option Rat :=
  pyFloatList s.toList

/-- Model of Python `int(·)` truncation on a rational: toward zero. -/
def pyTrunc (x : Rat) : Int :=
  if 0 ≤ x then Int.floor x else Int.ceil x

/-- Model of Python `f.lower().endswith((".mp4", ".mov", ".mkv", ".avi", ".webm"))`
used by both drop handlers. -/
def hasVideoExt (f : String) : Bool :=
  [".mp4", ".mov", ".mkv", ".avi", ".webm"].any
    (fun e => e.toList.isSuffixOf (f.toList.map Char.toLower))

/-- Captured groups of the pattern `time=(\d+):(\d+):(\d+\.\d+)`: hour and
minute digit runs, and the seconds group split at its decimal point into
whole part, fraction digits, and fraction length (so a timestamp is a
purely numeric record). -/
structure TimeStamp where
  h : Nat
  m : Nat
  sec : Nat
  frac : Nat
  fracLen : Nat
deriving DecidableEq

/-- Longest leading run of decimal digits and the remaining characters
(the behaviour of a greedy `\d+` followed by a non-digit literal). -/
def takeDigits : List Char → List Char × List Char
  | [] => ([], [])
  | c :: cs =>
    if c.isDigit then
      let (d, r) := takeDigits cs
      (c :: d, r)
    else ([], c :: cs)

/-- Attempt to match `time=(\d+):(\d+):(\d+\.\d+)` at the head of the
character list.  The pattern's digit classes are each followed by a
non-digit literal, so greedy matching needs no backtracking and this
direct-style matcher agrees with the regex. -/
def matchTimeAt (cs : List Char) : Option TimeStamp :=
  match cs with
  | 't' :: 'i' :: 'm' :: 'e' :: '=' :: rest =>
    match takeDigits rest with
    | ([], _) => none
    | (d1, r1) =>
      match r1 with
      | ':' :: r2 =>
        match takeDigits r2 with
        | ([], _) => none
        | (d2, r3) =>
          match r3 with
          | ':' :: r4 =>
            match takeDigits r4 with
            | ([], _) => none
            | (d3, r5) =>
              match r5 with
              | '.' :: r6 =>
                match takeDigits r6 with
                | ([], _) => none
                | (d4, _) =>
                  some ⟨digitsVal d1, digitsVal d2, digitsVal d3, digitsVal d4, d4.length⟩
              | _ => none
          | _ => none
      | _ => none
  | _ => none

/-- Leftmost match of the timestamp pattern: try every start position in
order, as `re.search` does. -/
def searchTimeList : List Char → Option TimeStamp
  | [] => none
  | c :: cs =>
    match matchTimeAt (c :: cs) with
    | some ts => some ts
    | none => searchTimeList cs

/-- Model of `time_re.search(line)` on one diagnostic line. -/
def searchTime (line : String) : Option TimeStamp :=
  searchTimeList line.toList

/-- Elapsed seconds of a matched timestamp:
`h * 3600 + mm * 60 + s` with `s = float(group(3))` taken exactly. -/
def elapsed (ts : TimeStamp) : Rat :=
  ts.h * 3600 + ts.m * 60 + (ts.sec + (ts.frac : Rat) / 10 ^ ts.fracLen)

/-- Progress loop shared verbatim by both variants (bundled lines 115-125,
windows lines 103-113) up to the percent formula `pct`: scan the stderr
lines in order, keeping `last` (initially -1); a line with no timestamp
match, or a non-positive duration, emits nothing; otherwise the computed
percent is emitted exactly when it differs from `last`. -/
def trackFrom (d : Rat) (pct : Rat → Int) : Int → List (Option TimeStamp) → List Int
  | _, [] => []
  | last, none :: ls => trackFrom d pct last ls
  | last, some ts :: ls =>
    if 0 < d then
      let p := pct (elapsed ts)
      if p ≠ last then p :: trackFrom d pct p ls
      else trackFrom d pct last ls
    else trackFrom d pct last ls

namespace Bundled

/-- Lines 96-98 of the bundled variant:
`orig_bitrate = probe.stdout.strip()` followed by
`if not orig_bitrate or not orig_bitrate.isdigit(): orig_bitrate = None`. -/
def origBitrate (probeOut : String) : Option String :=
  let b := pyStrip probeOut
  if b.toList.isEmpty || !pyIsdigit b then none else some b

/-- Lines 101-103: the saturation filter expression; `toString` stands in
for Python's float interpolation (the claims never inspect the digits). -/
def buildVf (saturation : Rat) : String :=
  let vf := "eq=saturation=" ++ toString saturation
  if saturation ≤ 0 then vf ++ ",format=yuv420p" else vf

/-- Lines 105-110: the encoder command of the bundled variant. -/
def buildCmd (ffmpeg input output : String) (saturation : Rat)
    (probeOut : String) : List String :=
  let cmd := [ffmpeg, "-y", "-i", input, "-vf", buildVf saturation, "-c:v", "libx264"]
  let cmd :=
    match origBitrate probeOut with
    | some b => cmd ++ ["-b:v", b]
    | none => cmd ++ ["-b:v", "12M"]
  cmd ++ ["-maxrate", "12M", "-bufsize", "24M", "-c:a", "copy", output]

/-- The value placed after `-b:v` by the bundled variant. -/
def targetBitrate (probeOut : String) : String :=
  (origBitrate probeOut).getD "12M"

/-- Line 87: `duration = float(p.stdout.strip()) if p.stdout.strip() else 0.0`.
An empty probe output is defaulted to 0.0 before `float` is ever called,
but a nonempty non-numeric output reaches `float`, whose `ValueError`
escapes to the worker's outer `except` (line 131) and fails the job:
that path is the `Except.error` case. -/
def parseDuration (durOut : String) : Except String Rat :=
  let t := pyStrip durOut
  if t.toList.isEmpty then Except.ok 0
  else
    match pyFloat t with
    | some d => Except.ok d
    | none => Except.error ("could not convert string to float: " ++ t)

/-- Result of the two probe calls of the bundled worker. -/
structure ProbeResult where
  duration : Rat
  bitrate : Option String
deriving DecidableEq

/-- Lines 82-98: the two probe invocations, given each prober's stdout.
The duration parse may fail the job; the bitrate parse cannot. -/
def probe (durOut bitOut : String) : Except String ProbeResult :=
  match parseDuration durOut with
  | Except.ok d => Except.ok ⟨d, origBitrate bitOut⟩
  | Except.error e => Except.error e

/-- Line 122: `pct = int(min(100, (t / duration) * 100))` — no lower
clamp is written, but `t` is nonnegative whenever it comes from the
timestamp pattern. -/
def pct (d t : Rat) : Int :=
  pyTrunc (min 100 (t / d * 100))

/-- Percent updates emitted by the bundled worker for a stderr stream. -/
def emits (d : Rat) (lines : List String) : List Int :=
  trackFrom d (pct d) (-1) (lines.map searchTime)

/-- Signals of the bundled worker relevant to job termination. -/
inductive Event where
  | progress (p : Int)
  | finishedOk
  | errorOccurred (msg : String)
deriving DecidableEq

/-- Lines 114-130: the observable event sequence of one bundled job run —
the streamed progress updates, then the terminal signal picked from the
encoder's exit code.  Note the success branch emits nothing besides
`finished_ok`. -/
def runEvents (d : Rat) (lines : List String) (rc : Int) : List Event :=
  (emits d lines).map Event.progress ++
    (if rc = 0 then [Event.finishedOk]
     else [Event.errorOccurred ("ffmpeg rc=" ++ toString rc)])

/-- Lines 185-197: the add_files handler folded over the dialog's file
list `fs`, acting on the current `input_files` list `acc`: per file, the
20-entry cap is checked first (a message box is shown and the loop
breaks), then duplicates are skipped. -/
def add_files : List String → List String → List String
  | [], acc => acc
  | f :: fs, acc =>
    if 20 ≤ acc.length then acc
    else if f ∈ acc then add_files fs acc
    else add_files fs (acc ++ [f])

/-- Lines 243-249: the drag-and-drop handler folded over the dropped
URLs: extension and duplicate checks, then the 20-entry cap. -/
def dropEvent : List String → List String → List String
  | [], acc => acc
  | u :: us, acc =>
    if hasVideoExt u ∧ u ∉ acc then
      if acc.length < 20 then dropEvent us (acc ++ [u]) else dropEvent us acc
    else dropEvent us acc

/-- One FFmpegWorker as constructed by start_conversion. -/
structure Worker where
  input : String
  output : String
  saturation : Rat
deriving DecidableEq

/-- Lines 217-224: start_conversion iterates over `list(self.input_files)`
— a copy taken at call time — and eagerly creates one worker per file
before returning, so the batch is fixed at that moment.  `outName`
abstracts `Path(f).stem + "_converted.mp4"`. -/
def start_conversion (inputFiles : List String) (outputFolder : String)
    (sat : Rat) (outName : String → String) : List Worker :=
  inputFiles.map fun f => ⟨f, outputFolder ++ "/" ++ outName f, sat⟩

end Bundled

namespace Windows

/-- Line 71 of the windows variant: `bitrate = p.stdout.strip() or "12M"` —
any nonempty probe output is used verbatim, with no validation at all. -/
def selectBitrate (probeOut : String) : String :=
  let b := pyStrip probeOut
  if b.toList.isEmpty then "12M" else b

/-- Lines 86-88: the saturation filter expression (same shape as bundled). -/
def buildVf (saturation : Rat) : String :=
  let vf := "eq=saturation=" ++ toString saturation
  if saturation ≤ 0 then vf ++ ",format=yuv420p" else vf

/-- Lines 90-95: the encoder command of the windows variant.  Note it has
no `-c:v`, no `-maxrate` and no `-bufsize` arguments. -/
def buildCmd (ffmpeg input output : String) (saturation : Rat)
    (probeOut : String) : List String :=
  [ffmpeg, "-y", "-i", input,
   "-vf", buildVf saturation,
   "-b:v", selectBitrate probeOut, "-c:a", "copy",
   output]

/-- Lines 80-83: `duration = float(d.stdout.strip())` inside try/except —
any parse failure (empty output, `N/A`, a missing file's silence) is
absorbed into the 0.0 default. -/
def parseDuration (durOut : String) : Rat :=
  match pyFloat (pyStrip durOut) with
  | some d => d
  | none => 0

/-- Result of the two probe calls of the windows worker: the bitrate is
kept as the raw string already defaulted to `12M`. -/
structure ProbeResult where
  duration : Rat
  bitrate : String
deriving DecidableEq

/-- Lines 63-83: both probes of the windows worker; total, never failing
the job. -/
def probe (durOut bitOut : String) : ProbeResult :=
  ⟨parseDuration durOut, selectBitrate bitOut⟩

/-- Line 110: `pct = max(0, min(100, int((t / duration) * 100)))`. -/
def pct (d t : Rat) : Int :=
  max 0 (min 100 (pyTrunc (t / d * 100)))

/-- Percent updates emitted by the windows worker for a stderr stream. -/
def emits (d : Rat) (lines : List String) : List Int :=
  trackFrom d (pct d) (-1) (lines.map searchTime)

/-- Signals of the windows worker. -/
inductive Event where
  | progress (p : Int)
  | done (out : String)
  | error (msg : String)
deriving DecidableEq

/-- Lines 97-120: the observable event sequence of one windows job run.
On exit code 0 a final `progress 100` is pushed unconditionally before
`done`; otherwise the exit code is surfaced in the error message. -/
def runEvents (d : Rat) (lines : List String) (rc : Int)
    (outputPath : String) : List Event :=
  (emits d lines).map Event.progress ++
    (if rc = 0 then [Event.progress 100, Event.done outputPath]
     else [Event.error ("FFmpeg failed (exit code " ++ toString rc ++ ")")])

/-- File-size view of the temporary directory: byte size of an existing
file, `none` if absent.  This is the only part of the file system the
previewer's validity check reads. -/
structure FS where
  size : String → Option Nat

/-- Line 154 of the previewer, the validity test applied to a candidate
cache file: `os.path.exists(outjpg) and os.path.getsize(outjpg) > 500`. -/
def cacheValid (fs : FS) (file : String) : Bool :=
  match fs.size file with
  | some n => decide (500 < n)
  | none => false

/-- Zero-padded three-digit rendering of a value below 1000. -/
def pad3 (n : Nat) : String :=
  if n < 10 then "00" ++ toString n
  else if n < 100 then "0" ++ toString n
  else toString n

/-- Model of Python `f"{x:.3f}"` on the slider-derived saturations:
round to 3 decimal places and render with exactly 3 fraction digits.
The slider produces multiples of 1/100, where no rounding tie can occur,
so the idealised tie-breaking is never exercised. -/
def fmt3 (x : Rat) : String :=
  let n : Int := round (x * 1000)
  let a := n.natAbs
  (if n < 0 then "-" else "") ++ toString (a / 1000) ++ "." ++ pad3 (a % 1000)

/-- Lines 138-140: the deterministic cache file path for one
(resolved path, saturation) pair.  `md5hex` abstracts
`hashlib.md5(·).hexdigest()`, `tmpDir` abstracts `tempfile.gettempdir()`,
and `resolvedPath` stands for `Path(video_path).resolve().as_posix()`. -/
def previewTarget (md5hex : String → String) (tmpDir resolvedPath : String)
    (sat : Rat) : String :=
  tmpDir ++ "/" ++ ("preview_" ++ md5hex (resolvedPath ++ "|" ++ fmt3 sat) ++ ".jpg")

/-- Lines 146-147: the single-frame extraction command. -/
def previewCmd (ffmpeg videoPath : String) (sat : Rat) (outjpg : String) :
    List String :=
  [ffmpeg, "-y", "-ss", "00:00:01", "-i", videoPath,
   "-frames:v", "1", "-vf", buildVf sat, outjpg]

/-- Observable outcome of one Previewer.run call. -/
structure PreviewOutcome where
  invokedEncoder : Bool
  emitted : String
  fs : FS

/-- Lines 134-159: Previewer.run.  The external encoder subprocess is
abstracted as an arbitrary file-system transformation `encoderEffect`
(the `-y` flag lets it overwrite the target).  The control flow of the
Python code is kept exactly: the cache file name is computed, then
`subprocess.run` is executed unconditionally — there is no check of an
existing cache file before it — and only afterwards is the produced file
validated by existence and size. -/
def previewRun (md5hex : String → String)
    (encoderEffect : List String → FS → FS)
    (ffmpeg tmpDir resolvedPath : String) (sat : Rat) (fs : FS) :
    PreviewOutcome :=
  let outjpg := previewTarget md5hex tmpDir resolvedPath sat
  let fs2 := encoderEffect (previewCmd ffmpeg resolvedPath sat outjpg) fs
  ⟨true, if cacheValid fs2 outjpg then outjpg else "", fs2⟩

/-- Lines 263-266: the windows add_files loop — duplicate check only,
with no cap of any kind. -/
def add_files : List String → List String → List String
  | [], acc => acc
  | f :: fs, acc =>
    if f ∈ acc then add_files fs acc
    else add_files fs (acc ++ [f])

/-- Lines 244-251: the windows drop handler — extension and duplicate
checks, again with no cap. -/
def dropEvent : List String → List String → List String
  | [], acc => acc
  | u :: us, acc =>
    if hasVideoExt u ∧ u ∉ acc then dropEvent us (acc ++ [u])
    else dropEvent us acc

/-- Lines 271-276: remove each selected text from the files list
(`list.remove` drops the first occurrence). -/
def remove_selected (sel : List String) (acc : List String) : List String :=
  sel.foldl (fun a t => if t ∈ a then a.erase t else a) acc

/-- Terminal signal of one windows worker, as consumed by the queue:
`done` or `error` (lines 116-120). -/
inductive Outcome where
  | ok
  | fail (msg : String)
deriving DecidableEq

/-- Events observable from the sequential queue of the windows app. -/
inductive SchedEv where
  | started (file : String)
  | jobDone (file : String)
  | jobError (file : String)
  | batchComplete
deriving DecidableEq

/-- Terminal event delivered for one file given its worker's outcome:
`_worker_done` or `_worker_error` (lines 363-370); both re-enter
`_run_next`. -/
def termEv (f : String) : Outcome → SchedEv
  | Outcome.ok => SchedEv.jobDone f
  | Outcome.fail _ => SchedEv.jobError f

/-- Lines 339-370: sequential drain of the queue by `_run_next`.  When
the queue is empty, the completion dialog fires (`batchComplete`) and
nothing more runs.  Otherwise the head file is popped and its worker
started; the worker's terminal signal — supplied here as the next
element of `ocs`, in job order — re-enters `_run_next` on either
outcome, so a failure does not stop the batch.  If `ocs` runs short the
batch is still in flight after the last start, and no further event is
produced. -/
def drain : List String → List Outcome → List SchedEv
  | [], _ => [SchedEv.batchComplete]
  | f :: _, [] => [SchedEv.started f]
  | f :: q, oc :: ocs => SchedEv.started f :: termEv f oc :: drain q ocs

/-- Files started by a queue run, in order. -/
def startedFiles (evs : List SchedEv) : List String :=
  evs.filterMap fun e =>
    match e with
    | SchedEv.started f => some f
    | _ => none

/-- Sequentiality check over an event trace, carrying the number of
running jobs: a job may start only when nothing is running, terminal
events require a running job, and the batch-complete dialog may fire
only when the queue is idle. -/
def seqTrace : Nat → List SchedEv → Bool
  | _, [] => true
  | n, SchedEv.started _ :: es => decide (n = 0) && seqTrace (n + 1) es
  | n, SchedEv.jobDone _ :: es => decide (n = 1) && seqTrace (n - 1) es
  | n, SchedEv.jobError _ :: es => decide (n = 1) && seqTrace (n - 1) es
  | n, SchedEv.batchComplete :: es => decide (n = 0) && seqTrace n es

/-- Working-set and snapshot state of the windows app: `files` is the
list the UI mutates, `queue` the batch snapshot. -/
structure AppState where
  files : List String
  queue : List String
deriving DecidableEq

/-- Line 328: `self.queue = list(self.files)` — an element-wise copy
taken when the batch starts, not an alias. -/
def start_queue (st : AppState) : AppState :=
  { st with queue := st.files }

/-- The working-set operations available while the app runs. -/
inductive UiOp where
  | add (files : List String)
  | drop (urls : List String)
  | removeSel (sel : List String)

/-- Effect of one working-set operation: each mutates `files` only
(lines 244-276 touch `self.files` and the list widget, never
`self.queue`). -/
def applyOp (st : AppState) : UiOp → AppState
  | UiOp.add fs => { st with files := add_files fs st.files }
  | UiOp.drop us => { st with files := dropEvent us st.files }
  | UiOp.removeSel sel => { st with files := remove_selected sel st.files }

/-- Effect of a sequence of working-set operations. -/
def applyOps (st : AppState) (ops : List UiOp) : AppState :=
  ops.foldl applyOp st

end Windows

end VCC

open VCC

/-! Helper lemmas shared by several theorems. -/

lemma bundled_buildCmd_eq (f i o : String) (sat : Rat) (p : String) :
    Bundled.buildCmd f i o sat p
      = [f, "-y", "-i", i, "-vf", Bundled.buildVf sat, "-c:v", "libx264",
         "-b:v", Bundled.targetBitrate p, "-maxrate", "12M", "-bufsize", "24M",
         "-c:a", "copy", o] := by
  unfold Bundled.buildCmd Bundled.targetBitrate
  cases h : Bundled.origBitrate p <;> simp [h]

lemma isdigit_not_empty (s : String) (h : pyIsdigit s = true) :
    s.toList.isEmpty = false := by
  revert h
  unfold pyIsdigit
  cases s.toList.isEmpty <;> simp

lemma origBitrate_isdigit (p : String) (h : pyIsdigit (pyStrip p) = true) :
    Bundled.origBitrate p = some (pyStrip p) := by
  unfold Bundled.origBitrate
  simp [h]
  simpa using isdigit_not_empty _ h

lemma origBitrate_not_isdigit (p : String) (h : pyIsdigit (pyStrip p) = false) :
    Bundled.origBitrate p = none := by
  unfold Bundled.origBitrate
  simp [h]

lemma add_files_cap (fs acc : List String) (h : 20 ≤ acc.length) :
    Bundled.add_files fs acc = acc := by
  cases fs with
  | nil => rfl
  | cons f fs =>
    unfold Bundled.add_files
    rw [if_pos h]

lemma add_files_len (fs : List String) :
    ∀ acc, acc.length ≤ 20 → (Bundled.add_files fs acc).length ≤ 20 := by
  induction fs with
  | nil => intro acc h; simpa [Bundled.add_files] using h
  | cons f fs ih =>
    intro acc h
    unfold Bundled.add_files
    by_cases h20 : 20 ≤ acc.length
    · rw [if_pos h20]; exact h
    · rw [if_neg h20]
      by_cases hf : f ∈ acc
      · rw [if_pos hf]; exact ih acc h
      · rw [if_neg hf]
        refine ih _ ?_
        simp only [List.length_append, List.length_singleton]
        omega

lemma dropEvent_cap (us : List String) :
    ∀ acc, 20 ≤ acc.length → Bundled.dropEvent us acc = acc := by
  induction us with
  | nil => intro acc _; rfl
  | cons u us ih =>
    intro acc h
    unfold Bundled.dropEvent
    by_cases hc : hasVideoExt u ∧ u ∉ acc
    · rw [if_pos hc, if_neg (by omega)]
      exact ih acc h
    · rw [if_neg hc]
      exact ih acc h

lemma dropEvent_len (us : List String) :
    ∀ acc, acc.length ≤ 20 → (Bundled.dropEvent us acc).length ≤ 20 := by
  induction us with
  | nil => intro acc h; simpa [Bundled.dropEvent] using h
  | cons u us ih =>
    intro acc h
    unfold Bundled.dropEvent
    by_cases hc : hasVideoExt u ∧ u ∉ acc
    · rw [if_pos hc]
      by_cases h20 : acc.length < 20
      · rw [if_pos h20]
        refine ih _ ?_
        simp only [List.length_append, List.length_singleton]
        omega
      · rw [if_neg h20]; exact ih acc h
    · rw [if_neg hc]; exact ih acc h

lemma append_singleton_nodup {acc : List String} {f : String}
    (h : acc.Nodup) (hf : f ∉ acc) : (acc ++ [f]).Nodup := by
  simp [List.nodup_append, h, hf]

lemma bundled_add_files_nodup (fs : List String) :
    ∀ acc, acc.Nodup → (Bundled.add_files fs acc).Nodup := by
  induction fs with
  | nil => intro acc h; simpa [Bundled.add_files] using h
  | cons f fs ih =>
    intro acc h
    unfold Bundled.add_files
    by_cases h20 : 20 ≤ acc.length
    · rw [if_pos h20]; exact h
    · rw [if_neg h20]
      by_cases hf : f ∈ acc
      · rw [if_pos hf]; exact ih acc h
      · rw [if_neg hf]; exact ih _ (append_singleton_nodup h hf)

lemma bundled_dropEvent_nodup (us : List String) :
    ∀ acc, acc.Nodup → (Bundled.dropEvent us acc).Nodup := by
  induction us with
  | nil => intro acc h; simpa [Bundled.dropEvent] using h
  | cons u us ih =>
    intro acc h
    unfold Bundled.dropEvent
    by_cases hc : hasVideoExt u ∧ u ∉ acc
    · rw [if_pos hc]
      by_cases h20 : acc.length < 20
      · rw [if_pos h20]; exact ih _ (append_singleton_nodup h hc.2)
      · rw [if_neg h20]; exact ih acc h
    · rw [if_neg hc]; exact ih acc h

lemma windows_add_files_nodup (fs : List String) :
    ∀ acc, acc.Nodup → (Windows.add_files fs acc).Nodup := by
  induction fs with
  | nil => intro acc h; simpa [Windows.add_files] using h
  | cons f fs ih =>
    intro acc h
    unfold Windows.add_files
    by_cases hf : f ∈ acc
    · rw [if_pos hf]; exact ih acc h
    · rw [if_neg hf]; exact ih _ (append_singleton_nodup h hf)

lemma windows_dropEvent_nodup (us : List String) :
    ∀ acc, acc.Nodup → (Windows.dropEvent us acc).Nodup := by
  induction us with
  | nil => intro acc h; simpa [Windows.dropEvent] using h
  | cons u us ih =>
    intro acc h
    unfold Windows.dropEvent
    by_cases hc : hasVideoExt u ∧ u ∉ acc
    · rw [if_pos hc]; exact ih _ (append_singleton_nodup h hc.2)
    · rw [if_neg hc]; exact ih acc h

/-! Claim theorems. -/

/-- C1, counterexample: the claim's fallback policy fails on both
variants.  The windows variant uses the non-numeric probe output `N/A`
verbatim as the `-b:v` value instead of falling back to `12M`, and the
bundled variant uses the digit string `0` verbatim although it is not a
positive integer. -/
theorem C1_counterexample :
    Windows.buildCmd "ffmpeg" "in.mp4" "out.mp4" 1 "N/A"
      = ["ffmpeg", "-y", "-i", "in.mp4", "-vf", "eq=saturation=1",
         "-b:v", "N/A", "-c:a", "copy", "out.mp4"]
    ∧ isPosIntStr (pyStrip "N/A") = false
    ∧ ("N/A" : String) ≠ "12M"
    ∧ Bundled.targetBitrate "0" = "0"
    ∧ isPosIntStr (pyStrip "0") = false
    ∧ ("0" : String) ≠ "12M" := by
  refine ⟨by decide, by decide, by decide, by decide, by decide, by decide⟩

/-- C1, amended: a well-formed positive integer probe output is indeed
used verbatim by both variants, but the fallback conditions differ from
the claim: the bundled variant falls back to `12M` exactly when the
stripped output is not a nonempty digit string (so the non-positive `0`
is used verbatim), while the windows variant uses any nonempty stripped
output verbatim, falling back only on emptiness. -/
theorem C1_amended (f i o : String) (sat : Rat) (p : String) :
    Bundled.buildCmd f i o sat p
      = [f, "-y", "-i", i, "-vf", Bundled.buildVf sat, "-c:v", "libx264",
         "-b:v", Bundled.targetBitrate p, "-maxrate", "12M", "-bufsize", "24M",
         "-c:a", "copy", o]
    ∧ Windows.buildCmd f i o sat p
      = [f, "-y", "-i", i, "-vf", Windows.buildVf sat,
         "-b:v", Windows.selectBitrate p, "-c:a", "copy", o]
    ∧ (isPosIntStr (pyStrip p) = true →
        Bundled.targetBitrate p = pyStrip p ∧ Windows.selectBitrate p = pyStrip p)
    ∧ Bundled.targetBitrate p = (if pyIsdigit (pyStrip p) then pyStrip p else "12M")
    ∧ Windows.selectBitrate p
        = (if (pyStrip p).toList.isEmpty then "12M" else pyStrip p) := by
  refine ⟨bundled_buildCmd_eq f i o sat p, rfl, ?_, ?_, rfl⟩
  · intro hpos
    have hd : pyIsdigit (pyStrip p) = true := by
      revert hpos
      unfold isPosIntStr
      cases pyIsdigit (pyStrip p) <;> simp
    refine ⟨?_, ?_⟩
    · rw [Bundled.targetBitrate, origBitrate_isdigit p hd]
      rfl
    · have hne : ¬(pyStrip p).data = [] := by
        simpa using isdigit_not_empty _ hd
      unfold Windows.selectBitrate
      simp [hne]
  · by_cases hd : pyIsdigit (pyStrip p) = true
    · rw [if_pos hd, Bundled.targetBitrate, origBitrate_isdigit p hd]
      rfl
    · have hd2 : pyIsdigit (pyStrip p) = false := by
        revert hd
        cases pyIsdigit (pyStrip p) <;> simp
      rw [if_neg (by simp [hd2]), Bundled.targetBitrate, origBitrate_not_isdigit p hd2]
      rfl

/-- C1, witness for the amended theorem: a positive probed bitrate with
surrounding whitespace is used verbatim (stripped) by both variants. -/
theorem C1_amended_witness :
    Bundled.targetBitrate " 5000000\n" = pyStrip " 5000000\n"
    ∧ Windows.selectBitrate " 5000000\n" = pyStrip " 5000000\n" :=
  (C1_amended "ffmpeg" "i" "o" 1 " 5000000\n").2.2.1 (by decide)

/-- C2, counterexample: probing does raise in the bundled variant — the
non-numeric duration output `N/A` makes `float` raise `ValueError`,
which escapes to the worker's exception handler and fails the job,
instead of yielding duration 0.0. -/
theorem C2_counterexample :
    Bundled.probe "N/A" "5000000"
      = Except.error "could not convert string to float: N/A"
    ∧ Windows.parseDuration "N/A" = 0 :=
  ⟨rfl, rfl⟩

/-- C2, amended: the windows variant is fully defensive — any
unparseable duration output becomes 0.0 and the bitrate is a raw
defaulted string, so probing never fails the job.  The bundled variant
defaults only the empty duration output; a nonempty non-numeric duration
output raises and fails the job, while its bitrate parse is total. -/
theorem C2_amended (durOut bitOut : String) :
    (pyFloat (pyStrip durOut) = none → Windows.parseDuration durOut = 0)
    ∧ (∀ d : Rat, pyFloat (pyStrip durOut) = some d → Windows.parseDuration durOut = d)
    ∧ Windows.probe durOut bitOut
        = ⟨Windows.parseDuration durOut, Windows.selectBitrate bitOut⟩
    ∧ ((pyStrip durOut).toList.isEmpty = true →
        Bundled.probe durOut bitOut = Except.ok ⟨0, Bundled.origBitrate bitOut⟩)
    ∧ ((pyStrip durOut).toList.isEmpty = false → pyFloat (pyStrip durOut) = none →
        Bundled.probe durOut bitOut
          = Except.error ("could not convert string to float: " ++ pyStrip durOut)) := by
  refine ⟨?_, ?_, rfl, ?_, ?_⟩
  · intro h
    unfold Windows.parseDuration
    rw [h]
  · intro d h
    unfold Windows.parseDuration
    rw [h]
  · intro h
    have h' : (pyStrip durOut).data = [] := by simpa using h
    unfold Bundled.probe Bundled.parseDuration
    simp [h']
  · intro h1 h2
    have h1' : ¬(pyStrip durOut).data = [] := by simpa using h1
    unfold Bundled.probe Bundled.parseDuration
    simp [h1', h2]

/-- C2, witness for the amended theorem at the probe output `N/A`. -/
theorem C2_amended_witness :
    Bundled.probe "N/A" ""
      = Except.error ("could not convert string to float: " ++ pyStrip "N/A") :=
  (C2_amended "N/A" "").2.2.2.2 (by decide) (by decide)

/-- C5, counterexample: the windows variant has no cap at all — adding
21 distinct files to an empty working set yields a set of 21 entries. -/
theorem C5_counterexample :
    (Windows.add_files
      ["f01", "f02", "f03", "f04", "f05", "f06", "f07", "f08", "f09", "f10",
       "f11", "f12", "f13", "f14", "f15", "f16", "f17", "f18", "f19", "f20",
       "f21"] []).length = 21 := by
  decide

/-- C5, amended: only the bundled variant enforces the 20-entry cap; on
it, both add paths preserve the bound and reject every addition to a
full set, leaving the set unchanged at 20.  The windows variant is
unbounded (see the counterexample). -/
theorem C5_amended (fs acc : List String) (h : acc.length ≤ 20) :
    (Bundled.add_files fs acc).length ≤ 20
    ∧ (Bundled.dropEvent fs acc).length ≤ 20
    ∧ (acc.length = 20 → Bundled.add_files fs acc = acc)
    ∧ (acc.length = 20 → Bundled.dropEvent fs acc = acc) := by
  refine ⟨add_files_len fs acc h, dropEvent_len fs acc h, ?_, ?_⟩
  · intro h20
    exact add_files_cap fs acc (by omega)
  · intro h20
    exact dropEvent_cap fs acc (by omega)

/-- C5, witness for the amended theorem: a full set of 20 rejects a new
file through either add path. -/
theorem C5_amended_witness :
    Bundled.add_files ["x.mp4"]
      ["f01", "f02", "f03", "f04", "f05", "f06", "f07", "f08", "f09", "f10",
       "f11", "f12", "f13", "f14", "f15", "f16", "f17", "f18", "f19", "f20"]
    = ["f01", "f02", "f03", "f04", "f05", "f06", "f07", "f08", "f09", "f10",
       "f11", "f12", "f13", "f14", "f15", "f16", "f17", "f18", "f19", "f20"]
    ∧ Bundled.dropEvent ["x.mp4"]
      ["f01", "f02", "f03", "f04", "f05", "f06", "f07", "f08", "f09", "f10",
       "f11", "f12", "f13", "f14", "f15", "f16", "f17", "f18", "f19", "f20"]
    = ["f01", "f02", "f03", "f04", "f05", "f06", "f07", "f08", "f09", "f10",
       "f11", "f12", "f13", "f14", "f15", "f16", "f17", "f18", "f19", "f20"] :=
  ⟨(C5_amended ["x.mp4"] _ (by decide)).2.2.1 (by decide),
   (C5_amended ["x.mp4"] _ (by decide)).2.2.2 (by decide)⟩

/-- C6, counterexample: the windows variant's encoder command contains
neither the `-maxrate` ceiling nor the `-bufsize` constraint. -/
theorem C6_counterexample :
    "-maxrate" ∉ Windows.buildCmd "ffmpeg" "in.mp4" "out.mp4" 1 "5000000"
    ∧ "-bufsize" ∉ Windows.buildCmd "ffmpeg" "in.mp4" "out.mp4" 1 "5000000" := by
  refine ⟨by decide, by decide⟩

/-- C6, amended: only the bundled variant always applies
`-maxrate 12M -bufsize 24M`, independent of the chosen target bitrate;
the windows variant's command has exactly the shape shown, with no rate
ceiling or buffer constraint. -/
theorem C6_amended (f i o : String) (sat : Rat) (p : String) :
    (∃ pre suf, Bundled.buildCmd f i o sat p
        = pre ++ ["-maxrate", "12M", "-bufsize", "24M"] ++ suf)
    ∧ Windows.buildCmd f i o sat p
      = [f, "-y", "-i", i, "-vf", Windows.buildVf sat,
         "-b:v", Windows.selectBitrate p, "-c:a", "copy", o] := by
  refine ⟨⟨[f, "-y", "-i", i, "-vf", Bundled.buildVf sat, "-c:v", "libx264",
            "-b:v", Bundled.targetBitrate p], ["-c:a", "copy", o], ?_⟩, rfl⟩
  rw [bundled_buildCmd_eq]
  rfl

/-- C7, counterexample: in the bundled variant a job whose encoder exits
with status 0 after a stream with no timestamp line delivers only the
success signal — no 100% progress event is ever emitted. -/
theorem C7_counterexample :
    Bundled.runEvents 20 [] 0 = [Bundled.Event.finishedOk]
    ∧ Bundled.Event.progress 100 ∉ Bundled.runEvents 20 [] 0 := by
  refine ⟨by decide, by decide⟩

/-- C7, amended: the windows variant guarantees a trailing 100% progress
event immediately before the success event on exit 0, and surfaces the
exit code in the error message otherwise; the bundled variant also
surfaces the exit code on failure, but on success emits only the success
signal with no guaranteed final 100%. -/
theorem C7_amended (d : Rat) (lines : List String) (rc : Int) (out : String) :
    (rc = 0 → Windows.runEvents d lines rc out
        = (Windows.emits d lines).map Windows.Event.progress
          ++ [Windows.Event.progress 100, Windows.Event.done out])
    ∧ (rc ≠ 0 → Windows.runEvents d lines rc out
        = (Windows.emits d lines).map Windows.Event.progress
          ++ [Windows.Event.error ("FFmpeg failed (exit code " ++ toString rc ++ ")")])
    ∧ (rc = 0 → Bundled.runEvents d lines rc
        = (Bundled.emits d lines).map Bundled.Event.progress ++ [Bundled.Event.finishedOk])
    ∧ (rc ≠ 0 → Bundled.runEvents d lines rc
        = (Bundled.emits d lines).map Bundled.Event.progress
          ++ [Bundled.Event.errorOccurred ("ffmpeg rc=" ++ toString rc)]) := by
  refine ⟨?_, ?_, ?_, ?_⟩ <;> intro h <;>
    simp [Windows.runEvents, Bundled.runEvents, h]

/-- C7, witness for the amended theorem: with an empty diagnostic stream
and exit 0, windows still delivers 100% before success, bundled only the
success signal. -/
theorem C7_amended_witness :
    Windows.runEvents 20 [] 0 "o"
      = [Windows.Event.progress 100, Windows.Event.done "o"]
    ∧ Bundled.runEvents 20 [] 0 = [Bundled.Event.finishedOk] := by
  have h := C7_amended 20 [] 0 "o"
  exact ⟨by simpa [Windows.emits, trackFrom] using h.1 rfl,
         by simpa [Bundled.emits, trackFrom] using h.2.2.1 rfl⟩

/-- C9: every add path of both variants skips paths already present, so
a duplicate-free working set stays duplicate-free under every add
operation, and re-adding an existing path leaves the set unchanged. -/
theorem C9_no_duplicates (fs acc : List String) (h : acc.Nodup) :
    (Bundled.add_files fs acc).Nodup
    ∧ (Bundled.dropEvent fs acc).Nodup
    ∧ (Windows.add_files fs acc).Nodup
    ∧ (Windows.dropEvent fs acc).Nodup
    ∧ (∀ f ∈ acc,
        Bundled.add_files [f] acc = acc ∧ Bundled.dropEvent [f] acc = acc
        ∧ Windows.add_files [f] acc = acc ∧ Windows.dropEvent [f] acc = acc) := by
  refine ⟨bundled_add_files_nodup fs acc h, bundled_dropEvent_nodup fs acc h,
          windows_add_files_nodup fs acc h, windows_dropEvent_nodup fs acc h, ?_⟩
  intro f hf
  refine ⟨?_, ?_, ?_, ?_⟩
  · by_cases h20 : 20 ≤ acc.length <;> simp [Bundled.add_files, h20, hf]
  · simp [Bundled.dropEvent, hf]
  · simp [Windows.add_files, hf]
  · simp [Windows.dropEvent, hf]

/-- C9, witness: re-adding `a` to the duplicate-free set `[a, b]` leaves
it unchanged and duplicate-free. -/
theorem C9_no_duplicates_witness :
    (Windows.add_files ["a"] ["a", "b"]).Nodup
    ∧ Windows.add_files ["a"] ["a", "b"] = ["a", "b"]
    ∧ Bundled.add_files ["a"] ["a", "b"] = ["a", "b"] :=
  ⟨(C9_no_duplicates ["a"] ["a", "b"] (by decide)).2.2.1,
   ((C9_no_duplicates ["a"] ["a", "b"] (by decide)).2.2.2.2 "a" (by decide)).2.2.1,
   ((C9_no_duplicates ["a"] ["a", "b"] (by decide)).2.2.2.2 "a" (by decide)).1⟩

/-! Scheduler lemmas. -/

lemma drain_characterization (q : List String) :
    ∀ ocs : List Windows.Outcome, ocs.length = q.length →
      Windows.drain q ocs
        = (List.zipWith (fun f oc => [Windows.SchedEv.started f, Windows.termEv f oc]) q ocs).flatten
          ++ [Windows.SchedEv.batchComplete] := by
  induction q with
  | nil =>
    intro ocs h
    have hocs : ocs = [] := List.length_eq_zero.mp h
    subst hocs
    rfl
  | cons f q ih =>
    intro ocs h
    cases ocs with
    | nil => simp at h
    | cons oc ocs =>
      have h' : ocs.length = q.length := by simpa using h
      simp [Windows.drain, ih ocs h']

lemma drain_seqTrace (q : List String) :
    ∀ ocs : List Windows.Outcome, ocs.length = q.length →
      Windows.seqTrace 0 (Windows.drain q ocs) = true := by
  induction q with
  | nil =>
    intro ocs h
    have hocs : ocs = [] := List.length_eq_zero.mp h
    subst hocs
    rfl
  | cons f q ih =>
    intro ocs h
    cases ocs with
    | nil => simp at h
    | cons oc ocs =>
      have h' : ocs.length = q.length := by simpa using h
      cases oc <;> simp [Windows.drain, Windows.termEv, Windows.seqTrace, ih ocs h']

lemma drain_startedFiles (q : List String) :
    ∀ ocs : List Windows.Outcome, ocs.length = q.length →
      Windows.startedFiles (Windows.drain q ocs) = q := by
  induction q with
  | nil =>
    intro ocs h
    have hocs : ocs = [] := List.length_eq_zero.mp h
    subst hocs
    rfl
  | cons f q ih =>
    intro ocs h
    cases ocs with
    | nil => simp at h
    | cons oc ocs =>
      have h' : ocs.length = q.length := by simpa using h
      cases oc <;> simp [Windows.drain, Windows.termEv, Windows.startedFiles] <;>
        simpa [Windows.startedFiles] using ih ocs h'

lemma drain_terminal (q : List String) :
    ∀ ocs : List Windows.Outcome, ocs.length = q.length → ∀ f ∈ q,
      Windows.SchedEv.jobDone f ∈ Windows.drain q ocs
      ∨ Windows.SchedEv.jobError f ∈ Windows.drain q ocs := by
  induction q with
  | nil => intro ocs h f hf; simp at hf
  | cons g q ih =>
    intro ocs h f hf
    cases ocs with
    | nil => simp at h
    | cons oc ocs =>
      have h' : ocs.length = q.length := by simpa using h
      rcases List.mem_cons.mp hf with hfg | hfq
      · subst hfg
        cases oc with
        | ok => left; simp [Windows.drain, Windows.termEv]
        | fail m => right; simp [Windows.drain, Windows.termEv]
      · rcases ih ocs h' f hfq with hc | hc
        · left; simp [Windows.drain, hc]
        · right; simp [Windows.drain, hc]

lemma drain_count_batchComplete (q : List String) :
    ∀ ocs : List Windows.Outcome, ocs.length = q.length →
      (Windows.drain q ocs).count Windows.SchedEv.batchComplete = 1 := by
  induction q with
  | nil =>
    intro ocs h
    have hocs : ocs = [] := List.length_eq_zero.mp h
    subst hocs
    rfl
  | cons f q ih =>
    intro ocs h
    cases ocs with
    | nil => simp at h
    | cons oc ocs =>
      have h' : ocs.length = q.length := by simpa using h
      cases oc <;> simp [Windows.drain, Windows.termEv, List.count_cons, ih ocs h']

lemma drain_getLast (q : List String) :
    ∀ ocs : List Windows.Outcome, ocs.length = q.length →
      (Windows.drain q ocs).getLast? = some Windows.SchedEv.batchComplete := by
  intro ocs h
  rw [drain_characterization q ocs h]
  exact List.getLast?_concat _

lemma applyOp_queue (st : Windows.AppState) (op : Windows.UiOp) :
    (Windows.applyOp st op).queue = st.queue := by
  cases op <;> rfl

lemma applyOps_queue (ops : List Windows.UiOp) :
    ∀ st : Windows.AppState, (Windows.applyOps st ops).queue = st.queue := by
  induction ops with
  | nil => intro st; rfl
  | cons op ops ih =>
    intro st
    have h1 : Windows.applyOps st (op :: ops) = Windows.applyOps (Windows.applyOp st op) ops := rfl
    rw [h1, ih (Windows.applyOp st op), applyOp_queue]

/-- C4, counterexample: with an already-valid cache entry for the
requested (path, saturation) pair, Previewer.run still invokes the
encoder — there is no skip-if-cached check before `subprocess.run`
(though the deterministic cache path is indeed what gets returned). -/
theorem C4_counterexample :
    Windows.cacheValid
        ⟨fun f => if f = "/tmp/preview_h.jpg" then some 1000 else none⟩
        (Windows.previewTarget (fun _ => "h") "/tmp" "/v/a.mp4" 1) = true
    ∧ (Windows.previewRun (fun _ => "h") (fun _ fs => fs) "ffmpeg" "/tmp" "/v/a.mp4" 1
        ⟨fun f => if f = "/tmp/preview_h.jpg" then some 1000 else none⟩).invokedEncoder = true
    ∧ (Windows.previewRun (fun _ => "h") (fun _ fs => fs) "ffmpeg" "/tmp" "/v/a.mp4" 1
        ⟨fun f => if f = "/tmp/preview_h.jpg" then some 1000 else none⟩).emitted
      = Windows.previewTarget (fun _ => "h") "/tmp" "/v/a.mp4" 1 :=
  ⟨rfl, rfl, rfl⟩

/-- C4, amended: the cache file path is a deterministic function of the
resolved path and the 3-decimal rendering of the saturation, the
previewer returns that path exactly when the produced file is valid
(and the empty string otherwise) — but the encoder is invoked on every
request, including requests whose cache entry is already valid. -/
theorem C4_amended (md5hex : String → String)
    (eff : List String → Windows.FS → Windows.FS)
    (ffmpeg tmpDir path : String) (sat sat2 : Rat) (fs : Windows.FS) :
    (Windows.previewRun md5hex eff ffmpeg tmpDir path sat fs).invokedEncoder = true
    ∧ (Windows.fmt3 sat = Windows.fmt3 sat2 →
        Windows.previewTarget md5hex tmpDir path sat
          = Windows.previewTarget md5hex tmpDir path sat2)
    ∧ (Windows.previewRun md5hex eff ffmpeg tmpDir path sat fs).fs
        = eff (Windows.previewCmd ffmpeg path sat
            (Windows.previewTarget md5hex tmpDir path sat)) fs
    ∧ (Windows.cacheValid (Windows.previewRun md5hex eff ffmpeg tmpDir path sat fs).fs
          (Windows.previewTarget md5hex tmpDir path sat) = true →
        (Windows.previewRun md5hex eff ffmpeg tmpDir path sat fs).emitted
          = Windows.previewTarget md5hex tmpDir path sat)
    ∧ (Windows.cacheValid (Windows.previewRun md5hex eff ffmpeg tmpDir path sat fs).fs
          (Windows.previewTarget md5hex tmpDir path sat) = false →
        (Windows.previewRun md5hex eff ffmpeg tmpDir path sat fs).emitted = "") := by
  refine ⟨rfl, ?_, rfl, ?_, ?_⟩
  · intro h
    unfold Windows.previewTarget
    rw [h]
  · intro h
    simp only [Windows.previewRun] at h ⊢
    simp [h]
  · intro h
    simp only [Windows.previewRun] at h ⊢
    simp [h]

/-- C4, witness for the amended theorem: when the encoder effect leaves a
valid file at the deterministic target, that path is returned. -/
theorem C4_amended_witness :
    (Windows.previewRun (fun _ => "h")
        (fun _ _ => ⟨fun f => if f = "/tmp/preview_h.jpg" then some 1000 else none⟩)
        "ffmpeg" "/tmp" "/v/a.mp4" 1 ⟨fun _ => none⟩).emitted
      = Windows.previewTarget (fun _ => "h") "/tmp" "/v/a.mp4" 1 :=
  (C4_amended (fun _ => "h")
      (fun _ _ => ⟨fun f => if f = "/tmp/preview_h.jpg" then some 1000 else none⟩)
      "ffmpeg" "/tmp" "/v/a.mp4" 1 1 ⟨fun _ => none⟩).2.2.2.1 rfl

/-- C8: the sequential queue drain of the windows app, given one terminal
outcome per queued file: the event trace is exactly start/terminal pairs
in queue order followed by one batch-complete; at most one job runs at a
time and the completion dialog fires only when nothing is running; every
queued file is started and reaches a terminal event (a failure does not
stop the batch); and batch-complete occurs exactly once, last. -/
theorem C8_sequential (q : List String) (ocs : List Windows.Outcome)
    (h : ocs.length = q.length) :
    Windows.drain q ocs
      = (List.zipWith (fun f oc => [Windows.SchedEv.started f, Windows.termEv f oc]) q ocs).flatten
        ++ [Windows.SchedEv.batchComplete]
    ∧ Windows.seqTrace 0 (Windows.drain q ocs) = true
    ∧ Windows.startedFiles (Windows.drain q ocs) = q
    ∧ (∀ f ∈ q, Windows.SchedEv.jobDone f ∈ Windows.drain q ocs
        ∨ Windows.SchedEv.jobError f ∈ Windows.drain q ocs)
    ∧ (Windows.drain q ocs).count Windows.SchedEv.batchComplete = 1
    ∧ (Windows.drain q ocs).getLast? = some Windows.SchedEv.batchComplete :=
  ⟨drain_characterization q ocs h, drain_seqTrace q ocs h, drain_startedFiles q ocs h,
   drain_terminal q ocs h, drain_count_batchComplete q ocs h, drain_getLast q ocs h⟩

/-- C8, witness: three jobs with the middle one failing — all three are
started, the failed one gets its error event, and batch-complete fires
exactly once, at the end. -/
theorem C8_sequential_witness :
    Windows.startedFiles (Windows.drain ["a", "b", "c"]
        [Windows.Outcome.ok, Windows.Outcome.fail "boom", Windows.Outcome.ok])
      = ["a", "b", "c"]
    ∧ (Windows.SchedEv.jobDone "b" ∈ Windows.drain ["a", "b", "c"]
          [Windows.Outcome.ok, Windows.Outcome.fail "boom", Windows.Outcome.ok]
        ∨ Windows.SchedEv.jobError "b" ∈ Windows.drain ["a", "b", "c"]
          [Windows.Outcome.ok, Windows.Outcome.fail "boom", Windows.Outcome.ok])
    ∧ (Windows.drain ["a", "b", "c"]
        [Windows.Outcome.ok, Windows.Outcome.fail "boom", Windows.Outcome.ok]).count
          Windows.SchedEv.batchComplete = 1
    ∧ (Windows.drain ["a", "b", "c"]
        [Windows.Outcome.ok, Windows.Outcome.fail "boom", Windows.Outcome.ok]).getLast?
      = some Windows.SchedEv.batchComplete :=
  ⟨(C8_sequential ["a", "b", "c"] [Windows.Outcome.ok, Windows.Outcome.fail "boom",
      Windows.Outcome.ok] (by decide)).2.2.1,
   (C8_sequential ["a", "b", "c"] [Windows.Outcome.ok, Windows.Outcome.fail "boom",
      Windows.Outcome.ok] (by decide)).2.2.2.1 "b" (by decide),
   (C8_sequential ["a", "b", "c"] [Windows.Outcome.ok, Windows.Outcome.fail "boom",
      Windows.Outcome.ok] (by decide)).2.2.2.2.1,
   (C8_sequential ["a", "b", "c"] [Windows.Outcome.ok, Windows.Outcome.fail "boom",
      Windows.Outcome.ok] (by decide)).2.2.2.2.2⟩

/-- C10: starting a batch snapshots the working set.  In the windows
variant the queue is an element-wise copy of `files` taken by
start_queue, every later working-set operation leaves that copy
untouched, and the files the drain starts are exactly the snapshot; in
the bundled variant all workers are created eagerly from a copy of the
file list, so their inputs are exactly the list at call time. -/
theorem C10_snapshot :
    (∀ (st : Windows.AppState) (ops : List Windows.UiOp),
        (Windows.applyOps (Windows.start_queue st) ops).queue = st.files)
    ∧ (∀ (q : List String) (ocs : List Windows.Outcome), ocs.length = q.length →
        Windows.startedFiles (Windows.drain q ocs) = q)
    ∧ (∀ (files : List String) (dir : String) (sat : Rat) (outName : String → String),
        (Bundled.start_conversion files dir sat outName).map Bundled.Worker.input
          = files) := by
  refine ⟨?_, fun q ocs h => drain_startedFiles q ocs h, ?_⟩
  · intro st ops
    rw [applyOps_queue]
    rfl
  · intro files dir sat outName
    unfold Bundled.start_conversion
    rw [List.map_map]
    exact List.map_id files

/-- C10, witness: a file added after the batch started does not appear in
the snapshot queue, and the drain converts exactly the snapshot. -/
theorem C10_snapshot_witness :
    (Windows.applyOps (Windows.start_queue ⟨["a", "b"], []⟩)
        [Windows.UiOp.add ["c"]]).queue = ["a", "b"]
    ∧ Windows.startedFiles (Windows.drain ["a", "b"]
        [Windows.Outcome.ok, Windows.Outcome.ok]) = ["a", "b"] :=
  ⟨C10_snapshot.1 ⟨["a", "b"], []⟩ [Windows.UiOp.add ["c"]],
   C10_snapshot.2.1 ["a", "b"] [Windows.Outcome.ok, Windows.Outcome.ok] (by decide)⟩

lemma pyTrunc_mono : Monotone pyTrunc := by
  intro x y hxy
  unfold pyTrunc
  by_cases hx : 0 ≤ x
  · rw [if_pos hx, if_pos (hx.trans hxy)]
    exact Int.floor_le_floor hxy
  · rw [if_neg hx]
    by_cases hy : 0 ≤ y
    · rw [if_pos hy]
      have hc : ⌈x⌉ ≤ (0 : Int) :=
        Int.ceil_le.mpr (by exact_mod_cast le_of_lt (lt_of_not_ge hx))
      exact le_trans hc (Int.floor_nonneg.mpr hy)
    · rw [if_neg hy]
      exact Int.ceil_le_ceil hxy

lemma windows_pct_mono (d : Rat) (hd : 0 < d) : Monotone (Windows.pct d) := by
  intro x y hxy
  unfold Windows.pct
  have h1 : x / d * 100 ≤ y / d * 100 := by gcongr
  exact max_le_max le_rfl (min_le_min le_rfl (pyTrunc_mono h1))

lemma windows_pct_nonneg (d t : Rat) : 0 ≤ Windows.pct d t :=
  le_max_left 0 _

lemma elapsed_nonneg (ts : TimeStamp) : 0 ≤ elapsed ts := by
  unfold elapsed
  positivity

lemma pct_agree (d t : Rat) (hd : 0 < d) (ht : 0 ≤ t) :
    Bundled.pct d t = Windows.pct d t := by
  unfold Bundled.pct Windows.pct pyTrunc
  have hq : 0 ≤ t / d * 100 := by positivity
  rw [if_pos (le_min (by norm_num) hq), if_pos hq]
  rcases le_total (t / d * 100) 100 with hle | hge
  · have h2 : ⌊t / d * 100⌋ ≤ 100 := by
      calc ⌊t / d * 100⌋ ≤ ⌊(100 : Rat)⌋ := Int.floor_le_floor hle
        _ = 100 := by norm_num
    rw [min_eq_right hle, min_eq_right h2, max_eq_right (Int.floor_nonneg.mpr hq)]
  · have h2 : (100 : Int) ≤ ⌊t / d * 100⌋ := by
      calc (100 : Int) = ⌊(100 : Rat)⌋ := by norm_num
        _ ≤ ⌊t / d * 100⌋ := Int.floor_le_floor hge
    rw [min_eq_left hge, min_eq_left h2]
    norm_num

lemma trackFrom_congr (d : Rat) (p1 p2 : Rat → Int)
    (hp : ∀ ts : TimeStamp, p1 (elapsed ts) = p2 (elapsed ts)) :
    ∀ (ls : List (Option TimeStamp)) (last : Int),
      trackFrom d p1 last ls = trackFrom d p2 last ls := by
  intro ls
  induction ls with
  | nil => intro last; rfl
  | cons o ls ih =>
    intro last
    cases o with
    | none => simpa [trackFrom] using ih last
    | some ts =>
      by_cases hd : 0 < d
      · simp only [trackFrom, if_pos hd, hp ts]
        by_cases hne : p2 (elapsed ts) ≠ last
        · rw [if_pos hne, if_pos hne, ih]
        · rw [if_neg hne, if_neg hne, ih]
      · simp only [trackFrom, if_neg hd]
        exact ih last

lemma trackFrom_map_filter (d : Rat) (pctF : Rat → Int) (lines : List String) :
    ∀ last, trackFrom d pctF last (lines.map searchTime)
      = trackFrom d pctF last
          ((lines.filter fun l => (searchTime l).isSome).map searchTime) := by
  induction lines with
  | nil => intro last; rfl
  | cons l ls ih =>
    intro last
    cases hl : searchTime l with
    | none =>
      simp only [List.map_cons, List.filter_cons, hl, Option.isSome_none,
        Bool.false_eq_true, if_false]
      calc trackFrom d pctF last (none :: ls.map searchTime)
          = trackFrom d pctF last (ls.map searchTime) := by simp [trackFrom]
        _ = _ := ih last
    | some ts =>
      simp only [List.map_cons, List.filter_cons, hl, Option.isSome_some, if_true]
      by_cases hd : 0 < d
      · simp only [trackFrom, if_pos hd]
        by_cases hne : pctF (elapsed ts) ≠ last
        · rw [if_pos hne, if_pos hne, ih]
        · rw [if_neg hne, if_neg hne, ih]
      · simp only [trackFrom, if_neg hd]
        exact ih last

lemma trackFrom_mem (d : Rat) (pctF : Rat → Int) :
    ∀ (ls : List (Option TimeStamp)) (last : Int) (e : Int),
      e ∈ trackFrom d pctF last ls →
      ∃ ts : TimeStamp, some ts ∈ ls ∧ e = pctF (elapsed ts) := by
  intro ls
  induction ls with
  | nil => intro last e he; simp [trackFrom] at he
  | cons o ls ih =>
    intro last e he
    cases o with
    | none =>
      rcases ih last e (by simpa [trackFrom] using he) with ⟨ts, hmem, he2⟩
      exact ⟨ts, by simp [hmem], he2⟩
    | some ts =>
      by_cases hd : 0 < d
      · simp only [trackFrom, if_pos hd] at he
        by_cases hne : pctF (elapsed ts) ≠ last
        · rw [if_pos hne] at he
          rcases List.mem_cons.mp he with h1 | h2
          · exact ⟨ts, by simp, h1⟩
          · rcases ih _ e h2 with ⟨ts2, hm, he2⟩
            exact ⟨ts2, by simp [hm], he2⟩
        · rw [if_neg hne] at he
          rcases ih _ e he with ⟨ts2, hm, he2⟩
          exact ⟨ts2, by simp [hm], he2⟩
      · simp only [trackFrom, if_neg hd] at he
        rcases ih _ e he with ⟨ts2, hm, he2⟩
        exact ⟨ts2, by simp [hm], he2⟩

lemma trackFrom_chain (d : Rat) (pctF : Rat → Int) (hd : 0 < d) :
    ∀ (ls : List (Option TimeStamp)) (last : Int),
      ((ls.filterMap id).map fun ts => pctF (elapsed ts)).Pairwise (· ≤ ·) →
      (∀ p ∈ (ls.filterMap id).map fun ts => pctF (elapsed ts), last ≤ p) →
      List.Chain' (· < ·) (trackFrom d pctF last ls)
      ∧ ∀ e ∈ trackFrom d pctF last ls, last < e := by
  intro ls
  induction ls with
  | nil =>
    intro last _ _
    exact ⟨by simp [trackFrom], by simp [trackFrom]⟩
  | cons o ls ih =>
    intro last hpw hlast
    cases o with
    | none =>
      have h1 := ih last (by simpa using hpw) (by simpa using hlast)
      simpa [trackFrom] using h1
    | some ts =>
      have hfm : ((some ts :: ls).filterMap id).map (fun ts => pctF (elapsed ts))
          = pctF (elapsed ts) :: (ls.filterMap id).map (fun ts => pctF (elapsed ts)) := by
        simp
      rw [hfm] at hpw hlast
      have hpw' := List.pairwise_cons.mp hpw
      have hple : ∀ b ∈ (ls.filterMap id).map fun ts => pctF (elapsed ts),
          pctF (elapsed ts) ≤ b := hpw'.1
      have hpw2 := hpw'.2
      have hlp : last ≤ pctF (elapsed ts) := hlast _ (by simp)
      by_cases hne : pctF (elapsed ts) ≠ last
      · have hlt : last < pctF (elapsed ts) := lt_of_le_of_ne hlp (Ne.symm hne)
        have hind := ih (pctF (elapsed ts)) hpw2 hple
        simp only [trackFrom, if_pos hd, if_pos hne]
        constructor
        · rw [List.chain'_cons']
          refine ⟨fun y hy => hind.2 y (List.mem_of_mem_head? hy), hind.1⟩
        · intro e he
          rcases List.mem_cons.mp he with h1 | h2
          · exact h1 ▸ hlt
          · exact lt_trans hlt (hind.2 e h2)
      · have heq : pctF (elapsed ts) = last := by
          by_contra hc
          exact hne hc
        simp only [trackFrom, if_pos hd, if_neg hne]
        exact ih last hpw2 (fun b hb => heq ▸ hple b hb)

/-- C3, counterexample: the progress de-duplication only compares against
the last emitted value, so a stream whose second timestamp is earlier
than the first (duration 20) emits the decreasing sequence [50, 25] —
the claim's "never decreases" fails on arbitrary line sequences. -/
theorem C3_counterexample :
    Windows.emits 20 ["time=00:00:10.00", "time=00:00:05.00"] = [50, 25]
    ∧ ¬ List.Chain' (· ≤ ·)
        (Windows.emits 20 ["time=00:00:10.00", "time=00:00:05.00"]) := by
  have h1 : searchTime "time=00:00:10.00" = some ⟨0, 0, 10, 0, 2⟩ := by decide
  have h2 : searchTime "time=00:00:05.00" = some ⟨0, 0, 5, 0, 2⟩ := by decide
  have he : Windows.emits 20 ["time=00:00:10.00", "time=00:00:05.00"] = [50, 25] := by
    simp only [Windows.emits, List.map, h1, h2]
    norm_num [trackFrom, Windows.pct, elapsed, pyTrunc]
  refine ⟨he, ?_⟩
  rw [he]
  intro hch
  have hle := (List.chain'_cons.mp hch).1
  norm_num at hle

/-- C3, amended: with a positive duration, both variants emit identical
sequences; lines without a matching timestamp contribute nothing; each
percent is the clamp-floor of elapsed/duration; every emitted value is
the percent of some matched timestamp; and provided the matched
timestamps are non-decreasing in elapsed time, the emitted sequence is
strictly increasing — never repeating and never decreasing. -/
theorem C3_amended (d : Rat) (lines : List String) (hd : 0 < d)
    (hmono : List.Chain' (· ≤ ·) ((lines.filterMap searchTime).map elapsed)) :
    Bundled.emits d lines = Windows.emits d lines
    ∧ Windows.emits d lines
        = Windows.emits d (lines.filter fun l => (searchTime l).isSome)
    ∧ (∀ t : Rat, 0 ≤ t → Windows.pct d t = max 0 (min 100 ⌊t / d * 100⌋))
    ∧ (∀ e ∈ Windows.emits d lines, ∃ ts ∈ lines.filterMap searchTime,
        e = Windows.pct d (elapsed ts))
    ∧ List.Chain' (· < ·) (Windows.emits d lines) := by
  refine ⟨?_, ?_, ?_, ?_, ?_⟩
  · unfold Bundled.emits Windows.emits
    exact trackFrom_congr d _ _
      (fun ts => pct_agree d (elapsed ts) hd (elapsed_nonneg ts)) _ _
  · unfold Windows.emits
    exact trackFrom_map_filter d _ lines _
  · intro t ht
    unfold Windows.pct pyTrunc
    rw [if_pos (by positivity)]
  · intro e he
    unfold Windows.emits at he
    rcases trackFrom_mem d _ (lines.map searchTime) (-1) e he with ⟨ts, hmem, he2⟩
    rcases List.mem_map.mp hmem with ⟨l, hl, hst⟩
    exact ⟨ts, List.mem_filterMap.mpr ⟨l, hl, hst⟩, he2⟩
  · have hpair : ((lines.filterMap searchTime).map elapsed).Pairwise (· ≤ ·) :=
      List.chain'_iff_pairwise.mp hmono
    have hmapped : (((lines.filterMap searchTime).map elapsed).map
        (Windows.pct d)).Pairwise (· ≤ ·) :=
      hpair.map _ (fun a b hab => windows_pct_mono d hd hab)
    have hpcts : (((lines.map searchTime).filterMap id).map
        fun ts => Windows.pct d (elapsed ts)).Pairwise (· ≤ ·) := by
      simpa [List.map_map, Function.comp] using hmapped
    have hlast : ∀ p ∈ ((lines.map searchTime).filterMap id).map
        fun ts => Windows.pct d (elapsed ts), (-1 : Int) ≤ p := by
      intro p hp
      rcases List.mem_map.mp hp with ⟨ts, _, rfl⟩
      exact le_trans (by norm_num) (windows_pct_nonneg d (elapsed ts))
    exact (trackFrom_chain d _ hd (lines.map searchTime) (-1) hpcts hlast).1

/-- C3, witness for the amended theorem: a stream with one unmatched
line between two increasing timestamps yields a strictly increasing
emitted sequence. -/
theorem C3_amended_witness :
    List.Chain' (· < ·)
      (Windows.emits 20 ["frame=1 time=00:00:05.00", "noise", "time=00:00:10.00"]) := by
  have hf : ["frame=1 time=00:00:05.00", "noise", "time=00:00:10.00"].filterMap searchTime
      = [⟨0, 0, 5, 0, 2⟩, ⟨0, 0, 10, 0, 2⟩] := by decide
  have hmono : List.Chain' (· ≤ ·)
      ((["frame=1 time=00:00:05.00", "noise", "time=00:00:10.00"].filterMap
        searchTime).map elapsed) := by
    rw [hf]
    norm_num [elapsed]
  exact (C3_amended 20 ["frame=1 time=00:00:05.00", "noise", "time=00:00:10.00"]
    (by norm_num) hmono).2.2.2.2
